import Mathlib

/-!
Shallow embedding of the process-management core and easy-fs layer of the
rCore-style teaching kernel (sources: `src/os/src/task/mod.rs`,
`src/os/src/syscall/process.rs`, `src/os/src/syscall/fs.rs`,
`src/easy-fs/src/vfs.rs`), together with theorems settling the spec claims.

Machine integers are modelled as `Nat`/`Int`; the Rust casts `as usize` and
`as isize` are made explicit where they matter.
-/

/-- The Rust cast `pid as usize` for a signed 64-bit value. -/
def usizeOf (i : Int) : Nat := (i % (2 : Int) ^ 64).toNat

/-- The Rust cast `n as isize` for an unsigned 64-bit value. -/
def isizeOf (n : Nat) : Int :=
  if n < 2 ^ 63 then (n : Int) else (n : Int) - 2 ^ 64

/-! ## easy-fs vfs layer (`src/easy-fs/src/vfs.rs`) -/

/-- A directory entry as stored in the root directory (`DirEntry` in easy-fs):
a name and the on-disk inode id. -/
structure DirEntry where
  name : String
  inode_id : Nat
deriving DecidableEq

/-- Rust `DirEntry::empty()`: the all-zero entry (empty name, inode id 0). -/
def DirEntry.emptyEnt : DirEntry := ⟨"", 0⟩

/-- The filesystem state observed by `Inode::remove_link`: the root directory's
entry list plus the allocation state of inodes and data blocks (the parts a
deallocation would mutate through `EasyFileSystem::dealloc_*`). -/
structure FsState where
  root_dir : List DirEntry
  allocated_inodes : List Nat
  allocated_data : List Nat
deriving DecidableEq

/-- The scan loop of `Inode::remove_link` (vfs.rs lines 190-205): visits every
directory slot in order; a slot whose name equals `name` is overwritten with the
empty entry and the `deleted` flag is set. Returns the rewritten directory and
the flag. -/
def remove_link_loop (name : String) : List DirEntry → List DirEntry × Bool
  | [] => ([], false)
  | d :: rest =>
    let r := remove_link_loop name rest
    if d.name == name then (DirEntry.emptyEnt :: r.1, true) else (d :: r.1, r.2)

/-- Rust `Inode::remove_link` (vfs.rs lines 181-233): runs the scan loop over the
root directory and returns 0 when the flag was set, -1 otherwise.  The
inode/data deallocation pass is commented out in the source, so the allocation
state is untouched. -/
def remove_link (st : FsState) (name : String) : Int × FsState :=
  let r := remove_link_loop name st.root_dir
  (if r.2 then 0 else -1, { st with root_dir := r.1 })

/-- A vfs `Inode` (vfs.rs lines 11-17): position of the disk inode plus the
cached inode id held behind `Arc<Mutex<u64>>`. -/
structure VfsInode where
  block_id : Nat
  block_offset : Nat
  inode_id : Nat
deriving DecidableEq

/-- Rust `Inode::new` (vfs.rs lines 21-34): the cached inode id is initialized to
the fixed literal 180. -/
def Inode_new (block_id block_offset : Nat) : VfsInode :=
  { block_id := block_id, block_offset := block_offset, inode_id := 180 }

/-- The fix-up performed by `Inode::find` (vfs.rs lines 77-79) and
`Inode::create` (vfs.rs lines 284-287): the freshly constructed inode's cached
id is overwritten with the id found on disk / freshly allocated. -/
def Inode_with_id (found_id block_id block_offset : Nat) : VfsInode :=
  { Inode_new block_id block_offset with inode_id := found_id }

/-- Rust `Inode::get_metadata` (vfs.rs lines 136-154): returns the cached inode id
and a mode derived from the on-disk inode's directory flag. -/
def get_metadata (is_dir : Bool) (i : VfsInode) : Nat × Nat :=
  (i.inode_id, if is_dir then 0o040000 else 0o100000)

/-! ## Theorems for claims C9 and C10 -/

lemma remove_link_loop_eq (name : String) (l : List DirEntry) :
    remove_link_loop name l =
      (l.map (fun d => if d.name == name then DirEntry.emptyEnt else d),
       l.any (fun d => d.name == name)) := by
  induction l with
  | nil => rfl
  | cons d rest ih =>
    simp only [remove_link_loop, ih, List.map_cons, List.any_cons]
    by_cases h : d.name == name
    · simp [h]
    · simp [h]

/-- C9: `remove_link(name)` overwrites every directory entry whose name equals
the argument with the empty entry, returns 0 iff at least one entry matched and
-1 iff none matched, and never deallocates the underlying inode or its data
blocks (the allocation state is unchanged). -/
theorem remove_link_spec (st : FsState) (name : String) :
    (remove_link st name).2.root_dir =
        st.root_dir.map (fun d => if d.name == name then DirEntry.emptyEnt else d)
    ∧ (remove_link st name).2.allocated_inodes = st.allocated_inodes
    ∧ (remove_link st name).2.allocated_data = st.allocated_data
    ∧ ((remove_link st name).1 = 0 ↔ ∃ d ∈ st.root_dir, d.name = name)
    ∧ ((remove_link st name).1 = -1 ↔ ∀ d ∈ st.root_dir, d.name ≠ name) := by
  have hdir : (remove_link st name).2.root_dir =
      st.root_dir.map (fun d => if d.name == name then DirEntry.emptyEnt else d) := by
    simp [remove_link, remove_link_loop_eq]
  have hret : (remove_link st name).1 =
      if st.root_dir.any (fun d => d.name == name) then 0 else -1 := by
    simp [remove_link, remove_link_loop_eq]
  refine ⟨hdir, rfl, rfl, ?_, ?_⟩
  · rw [hret]
    by_cases h : st.root_dir.any (fun d => d.name == name)
    · rw [if_pos h]
      simp only [List.any_eq_true, beq_iff_eq] at h
      exact ⟨fun _ => h, fun _ => rfl⟩
    · rw [if_neg h]
      simp only [List.any_eq_true, beq_iff_eq] at h
      constructor
      · intro hc; exact absurd hc (by decide)
      · intro hex; exact absurd hex h
  · rw [hret]
    by_cases h : st.root_dir.any (fun d => d.name == name)
    · rw [if_pos h]
      simp only [List.any_eq_true, beq_iff_eq] at h
      constructor
      · intro hc; exact absurd hc (by decide)
      · intro hall
        obtain ⟨d, hd, hdn⟩ := h
        exact absurd hdn (hall d hd)
    · rw [if_neg h]
      simp only [List.any_eq_true, beq_iff_eq] at h
      push_neg at h
      exact ⟨fun _ => h, fun _ => rfl⟩

/-- C10: an `Inode` constructed directly by `Inode::new` reports the fixed
cached inode id 180 from `get_metadata`, regardless of its actual on-disk
position, while inodes obtained through `find`/`create` (which overwrite the
cached id) report the real id. The `ino` field written by `sys_fstat` is the
first component of `get_metadata`. -/
theorem inode_new_metadata_spec (block_id block_offset found_id : Nat) (is_dir : Bool) :
    (get_metadata is_dir (Inode_new block_id block_offset)).1 = 180
    ∧ (get_metadata is_dir (Inode_with_id found_id block_id block_offset)).1 = found_id := by
  exact ⟨rfl, rfl⟩

/-! ## sys_waitpid (`src/os/src/syscall/process.rs` lines 84-118) -/

/-- The fields of a child task-control block observed by `sys_waitpid`:
its pid, whether `inner.is_zombie()` holds, and `inner.exit_code`. -/
structure ChildPCB where
  pid : Nat
  is_zombie : Bool
  exit_code : Int
deriving DecidableEq

/-- The match test `pid == -1 || pid as usize == p.getpid()`. -/
def waitMatches (pid : Int) (p : ChildPCB) : Bool :=
  pid == -1 || usizeOf pid == p.pid

/-- The predicate of the `children.iter().enumerate().find(..)` call:
`p.inner_exclusive_access().is_zombie() && (pid == -1 || pid as usize == p.getpid())`. -/
def zombieMatches (pid : Int) (p : ChildPCB) : Bool :=
  p.is_zombie && waitMatches pid p

/-- Result of one `sys_waitpid` call: its return value, the caller's children
list afterwards, and the value written through `exit_code_ptr` (none when
nothing is written). -/
structure WaitResult where
  ret : Int
  children : List ChildPCB
  written : Option Int
deriving DecidableEq

/-- Rust `sys_waitpid` (process.rs lines 84-118): returns -1 when no child matches
`pid`; otherwise finds the first zombie matching child, removes it from the
children list, writes its exit code through `exit_code_ptr` and returns its
pid; returns -2 when a child matches but none matching is a zombie. -/
def sys_waitpid (children : List ChildPCB) (pid : Int) : WaitResult :=
  if !(children.any (fun p => waitMatches pid p)) then
    ⟨-1, children, none⟩
  else
    match children.enum.find? (fun ip => zombieMatches pid ip.2) with
    | some (idx, p) => ⟨isizeOf p.pid, children.eraseIdx idx, some p.exit_code⟩
    | none => ⟨-2, children, none⟩

lemma enumFrom_find?_none {α} (q : α → Bool) (l : List α) (n : Nat)
    (h : ∀ x ∈ l, q x = false) :
    (l.enumFrom n).find? (fun ip => q ip.2) = none := by
  induction l generalizing n with
  | nil => rfl
  | cons a rest ih =>
    have ha : q a = false := h a (List.mem_cons_self a rest)
    simp only [List.enumFrom, List.find?, ha]
    exact ih (n + 1) (fun x hx => h x (List.mem_cons_of_mem a hx))

lemma enumFrom_find?_some {α} (q : α → Bool) (l : List α) (n : Nat)
    (h : ∃ x ∈ l, q x = true) :
    ∃ idx, ∃ hidx : idx < l.length,
      (l.enumFrom n).find? (fun ip => q ip.2) = some (n + idx, l.get ⟨idx, hidx⟩)
      ∧ q (l.get ⟨idx, hidx⟩) = true := by
  induction l generalizing n with
  | nil => obtain ⟨x, hx, _⟩ := h; exact absurd hx (List.not_mem_nil x)
  | cons a rest ih =>
    by_cases ha : q a = true
    · refine ⟨0, Nat.succ_pos _, ?_, ha⟩
      simp only [List.enumFrom, List.find?, ha]
      simp
    · have hrest : ∃ x ∈ rest, q x = true := by
        obtain ⟨x, hx, hqx⟩ := h
        rcases List.mem_cons.mp hx with hxa | hxr
        · exact absurd (hxa ▸ hqx) ha
        · exact ⟨x, hxr, hqx⟩
      obtain ⟨idx, hidx, hfind, hq⟩ := ih (n + 1) hrest
      refine ⟨idx + 1, Nat.succ_lt_succ hidx, ?_, hq⟩
      have ha' : q a = false := Bool.eq_false_iff.mpr ha
      simp only [List.enumFrom, List.find?, ha']
      rw [hfind]
      congr 2
      omega

/-- C1: for every `sys_waitpid(pid, exit_code_ptr)` call: when no child
matches `pid` (with `pid = -1` matching any child) the call returns -1 and
changes nothing; when a matching child exists but no matching child is a
zombie it returns the distinct sentinel -2 and changes nothing; when a
matching zombie child exists, the call removes it from the children list,
writes its exit code through `exit_code_ptr`, and returns its pid. -/
theorem sys_waitpid_spec (children : List ChildPCB) (pid : Int) :
    ((∀ p ∈ children, waitMatches pid p = false) →
       sys_waitpid children pid = ⟨-1, children, none⟩)
    ∧ ((∃ p ∈ children, waitMatches pid p = true) →
       (∀ p ∈ children, zombieMatches pid p = false) →
       sys_waitpid children pid = ⟨-2, children, none⟩)
    ∧ ((∃ p ∈ children, zombieMatches pid p = true) →
       ∃ idx, ∃ hidx : idx < children.length,
         zombieMatches pid (children.get ⟨idx, hidx⟩) = true
         ∧ sys_waitpid children pid =
             ⟨isizeOf (children.get ⟨idx, hidx⟩).pid,
              children.eraseIdx idx,
              some (children.get ⟨idx, hidx⟩).exit_code⟩) := by
  refine ⟨?_, ?_, ?_⟩
  · intro h
    have hany : children.any (fun p => waitMatches pid p) = false := by
      rw [Bool.eq_false_iff]
      intro hc
      obtain ⟨p, hp, hq⟩ := List.any_eq_true.mp hc
      exact absurd hq (by rw [h p hp]; decide)
    simp [sys_waitpid, hany]
  · intro hmatch hnoz
    have hany : children.any (fun p => waitMatches pid p) = true :=
      List.any_eq_true.mpr hmatch
    have hfind : children.enum.find? (fun ip => zombieMatches pid ip.2) = none := by
      have := enumFrom_find?_none (fun p => zombieMatches pid p) children 0 hnoz
      simpa [List.enum] using this
    simp [sys_waitpid, hany, hfind]
  · intro hz
    have hany : children.any (fun p => waitMatches pid p) = true := by
      obtain ⟨p, hp, hq⟩ := hz
      have hw : waitMatches pid p = true := by
        simp only [zombieMatches, Bool.and_eq_true] at hq
        exact hq.2
      exact List.any_eq_true.mpr ⟨p, hp, hw⟩
    obtain ⟨idx, hidx, hfind, hq⟩ :=
      enumFrom_find?_some (fun p => zombieMatches pid p) children 0 hz
    refine ⟨idx, hidx, hq, ?_⟩
    have hfind0 : children.enum.find? (fun ip => zombieMatches pid ip.2)
        = some (idx, children.get ⟨idx, hidx⟩) := by
      simpa [List.enum] using hfind
    simp [sys_waitpid, hany, hfind0]

/-- Witness for C1 at concrete inputs: a parent with children
pid 3 (running) and pid 5 (zombie, exit code 7). `waitpid(-1)` reaps pid 5;
`waitpid(3)` returns -2; `waitpid(9)` returns -1. -/
theorem sys_waitpid_spec_w :
    sys_waitpid [⟨3, false, 0⟩, ⟨5, true, 7⟩] 9 = ⟨-1, [⟨3, false, 0⟩, ⟨5, true, 7⟩], none⟩
    ∧ sys_waitpid [⟨3, false, 0⟩, ⟨5, true, 7⟩] 3 = ⟨-2, [⟨3, false, 0⟩, ⟨5, true, 7⟩], none⟩
    ∧ ∃ idx, ∃ hidx : idx < ([⟨3, false, 0⟩, ⟨5, true, 7⟩] : List ChildPCB).length,
        zombieMatches (-1) (([⟨3, false, 0⟩, ⟨5, true, 7⟩] : List ChildPCB).get ⟨idx, hidx⟩) = true
        ∧ sys_waitpid [⟨3, false, 0⟩, ⟨5, true, 7⟩] (-1) =
            ⟨isizeOf (([⟨3, false, 0⟩, ⟨5, true, 7⟩] : List ChildPCB).get ⟨idx, hidx⟩).pid,
             ([⟨3, false, 0⟩, ⟨5, true, 7⟩] : List ChildPCB).eraseIdx idx,
             some (([⟨3, false, 0⟩, ⟨5, true, 7⟩] : List ChildPCB).get ⟨idx, hidx⟩).exit_code⟩ := by
  refine ⟨(sys_waitpid_spec [⟨3, false, 0⟩, ⟨5, true, 7⟩] 9).1 (by decide),
          (sys_waitpid_spec [⟨3, false, 0⟩, ⟨5, true, 7⟩] 3).2.1 ⟨⟨3, false, 0⟩, by decide, by decide⟩ (by decide),
          (sys_waitpid_spec [⟨3, false, 0⟩, ⟨5, true, 7⟩] (-1)).2.2 ⟨⟨5, true, 7⟩, by decide, by decide⟩⟩

/-! ## TaskManager memory operations (`src/os/src/task/mod.rs` lines 187-255) -/

/-- PAGE_SIZE of the RISC-V Sv39 configuration. -/
def PAGE_SIZE : Nat := 4096

/-- Rust `VirtAddr::floor`: virtual page number containing the address. -/
def vaFloor (a : Nat) : Nat := a / PAGE_SIZE

/-- Rust `VirtAddr::ceil`: first virtual page number at or above the address. -/
def vaCeil (a : Nat) : Nat := (a + PAGE_SIZE - 1) / PAGE_SIZE

/-- Rust `VPNRange::new(s, e)`: the half-open page range `[s, e)`. -/
def vpnRange (s e : Nat) : List Nat := List.range' s (e - s)

/-- A leaf page-table entry: its V (valid) bit and permission flags. -/
structure PTEntry where
  valid : Bool
  flags : Nat
deriving DecidableEq

/-- Rust `pte.is_valid()` applied to the result of `translate`: true only when a
leaf entry exists and its V bit is set. -/
def pteValid (o : Option PTEntry) : Bool :=
  match o with
  | some pte => pte.valid
  | none => false

/-- The test of the `munmap` scan: a leaf entry exists but its V bit is clear
(`!pte.is_valid()` under `if let Some(pte)`; a missing entry yields false). -/
def pteInvalidPresent (o : Option PTEntry) : Bool :=
  match o with
  | some pte => !pte.valid
  | none => false

/-- The current task's address space as `mmap`/`munmap` observe it: the
page-table lookup `MemorySet::translate` (none = no leaf entry exists, the
entry's V bit distinguishes live from cleared mappings) and the list of framed
regions `(start_vpn, end_vpn, perm)`. -/
structure MemorySet where
  pageTable : Nat → Option PTEntry
  areas : List (Nat × Nat × Nat)

/-- Rust `MemorySet::translate` (read-only page-table lookup). -/
def MemorySet.translate (ms : MemorySet) (vpn : Nat) : Option PTEntry :=
  ms.pageTable vpn

/-- The conversion `MapPermission::from_bits((port << 1) as u8).unwrap() |
MapPermission::U` (R=bit1, W=bit2, X=bit3, U=bit4). -/
def mapPermFromPort (port : Nat) : Nat := (port <<< 1) ||| 16

/-- The usize mask `!0x7`. -/
def NOT7 : Nat := 2 ^ 64 - 8

/-- Modelled from the spec: `MemorySet::insert_framed_area` (src/os/src/mm is
not in the provided sources) — "allocates one physical frame per page in
`[start, end)`, page-aligned, inserts a new region and the corresponding
page-table entries": every page of the rounded range gets a valid leaf entry
with the given permissions and the region is recorded. -/
def insert_framed_area (ms : MemorySet) (start_va end_va perm : Nat) : MemorySet :=
  let s := vaFloor start_va
  let e := vaCeil end_va
  { pageTable := fun vpn =>
      if s ≤ vpn ∧ vpn < e then some ⟨true, perm⟩ else ms.pageTable vpn,
    areas := ms.areas ++ [(s, e, perm)] }

/-- Modelled from the spec: `MemorySet::del_framed_area` (src/os/src/mm is not
in the provided sources) — "unmaps and frees the frames, removes the region
record" for the region with exactly the rounded range; unmapping clears each
leaf entry (the entry stays present with its V bit clear, which is what the
`munmap` scan in src/os/src/task/mod.rs tests for). If no region has exactly
this range, nothing changes. -/
def del_framed_area (ms : MemorySet) (start_va end_va : Nat) : MemorySet :=
  let s := vaFloor start_va
  let e := vaCeil end_va
  if ms.areas.any (fun a => a.1 == s && a.2.1 == e) then
    { pageTable := fun vpn =>
        if s ≤ vpn ∧ vpn < e then some ⟨false, 0⟩ else ms.pageTable vpn,
      areas := ms.areas.filter (fun a => !(a.1 == s && a.2.1 == e)) }
  else ms

/-- Rust `TaskManager::mmap` (task/mod.rs lines 187-224), acting on the current
task's memory set: rejects a non-page-aligned start, a port with bits outside
the low three, or a port with none of the low three bits; rejects a range in
which some page is already validly mapped; otherwise inserts the framed area
and returns 0. -/
def TaskManager_mmap (ms : MemorySet) (start len port : Nat) : Int × MemorySet :=
  if start &&& 0xFFF ≠ 0 ∨ port &&& NOT7 ≠ 0 ∨ port &&& 0x7 = 0 then
    (-1, ms)
  else if (vpnRange (vaFloor start) (vaCeil (start + len))).any
      (fun vpn => pteValid (ms.pageTable vpn)) then
    (-1, ms)
  else
    (0, insert_framed_area ms start (start + len) (mapPermFromPort port))

/-- Rust `TaskManager::munmap` (task/mod.rs lines 227-255): rejects a non-aligned
start; rejects a range in which some page has a present leaf entry with the V
bit clear; otherwise deletes the framed area and returns 0. A page with no
leaf entry at all passes the scan unnoticed. -/
def TaskManager_munmap (ms : MemorySet) (start len : Nat) : Int × MemorySet :=
  if start &&& 0xFFF ≠ 0 then
    (-1, ms)
  else if (vpnRange (vaFloor start) (vaCeil (start + len))).any
      (fun vpn => pteInvalidPresent (ms.pageTable vpn)) then
    (-1, ms)
  else
    (0, del_framed_area ms start (start + len))

/-- C2: `mmap(start, len, port)` returns -1 with the address space (page table
and region list) unchanged whenever start is not page-aligned, or port has a
bit outside the low three, or port has none of the low three bits, or some
page of the rounded range is already validly mapped. -/
theorem mmap_error_spec (ms : MemorySet) (start len port : Nat)
    (h : start &&& 0xFFF ≠ 0 ∨ port &&& NOT7 ≠ 0 ∨ port &&& 0x7 = 0
       ∨ ∃ vpn ∈ vpnRange (vaFloor start) (vaCeil (start + len)),
           pteValid (ms.pageTable vpn) = true) :
    TaskManager_mmap ms start len port = (-1, ms) := by
  unfold TaskManager_mmap
  by_cases h1 : start &&& 0xFFF ≠ 0 ∨ port &&& NOT7 ≠ 0 ∨ port &&& 0x7 = 0
  · rw [if_pos h1]
  · rw [if_neg h1]
    have h2 : ∃ vpn ∈ vpnRange (vaFloor start) (vaCeil (start + len)),
        pteValid (ms.pageTable vpn) = true := by
      rcases h with ha | hb | hc | hd
      · exact absurd (Or.inl ha) h1
      · exact absurd (Or.inr (Or.inl hb)) h1
      · exact absurd (Or.inr (Or.inr hc)) h1
      · exact hd
    rw [if_pos (List.any_eq_true.mpr h2)]

/-- The empty address space: no leaf page-table entry exists anywhere and the
region list is empty. -/
def msEmpty : MemorySet := ⟨fun _ => none, []⟩

/-- An address space whose page 0 has a present leaf entry with the valid bit
clear (as left behind by a previous unmap). -/
def msInv : MemorySet := ⟨fun vpn => if vpn = 0 then some ⟨false, 0⟩ else none, []⟩

/-- Witness for C2: `mmap(1, 4096, 7)` on the empty address space fails with -1
and leaves the space unchanged (start 1 is not page-aligned). -/
theorem mmap_error_spec_w : TaskManager_mmap msEmpty 1 4096 7 = (-1, msEmpty) :=
  mmap_error_spec msEmpty 1 4096 7 (Or.inl (by decide))

lemma mem_vpnRange {s e m : Nat} : m ∈ vpnRange s e ↔ s ≤ m ∧ m < e := by
  unfold vpnRange
  rw [List.mem_range'_1]
  omega

/-- C3 counterexample: on an address space whose page table holds no leaf
entry at all for page 0, `munmap(0, 4096)` returns 0 — not the error sentinel
-1 the claim requires for a range containing an unmapped page. -/
theorem munmap_missing_entry_cex :
    0 ∈ vpnRange (vaFloor 0) (vaCeil (0 + 4096))
    ∧ msEmpty.pageTable 0 = none
    ∧ TaskManager_munmap msEmpty 0 4096 = (0, msEmpty) :=
  ⟨by decide, rfl, rfl⟩

/-- C3 (amended): `munmap(start, len)` returns -1 to the caller and unmaps
nothing whenever some page of the rounded range has a present leaf entry with
its valid bit clear — pages with no leaf entry at all pass the scan unnoticed —
and after a successful `mmap` of a range of nonzero length, a first `munmap` of
the exact same range returns 0 and a second `munmap` of that range returns
-1. -/
theorem munmap_spec (ms : MemorySet) (start len port : Nat) :
    ((∃ vpn ∈ vpnRange (vaFloor start) (vaCeil (start + len)),
        pteInvalidPresent (ms.pageTable vpn) = true) →
      TaskManager_munmap ms start len = (-1, ms))
    ∧ (0 < len →
       ∀ ms1, TaskManager_mmap ms start len port = (0, ms1) →
       ∃ ms2, TaskManager_munmap ms1 start len = (0, ms2)
            ∧ TaskManager_munmap ms2 start len = (-1, ms2)) := by
  constructor
  · intro hbad
    unfold TaskManager_munmap
    by_cases h1 : start &&& 0xFFF ≠ 0
    · rw [if_pos h1]
    · rw [if_neg h1, if_pos (List.any_eq_true.mpr hbad)]
  · intro hlen ms1 hm
    unfold TaskManager_mmap at hm
    by_cases h1 : start &&& 0xFFF ≠ 0 ∨ port &&& NOT7 ≠ 0 ∨ port &&& 0x7 = 0
    · rw [if_pos h1] at hm
      have : (-1 : Int) = 0 := congrArg Prod.fst hm
      exact absurd this (by decide)
    · rw [if_neg h1] at hm
      by_cases h2 : (vpnRange (vaFloor start) (vaCeil (start + len))).any
          (fun vpn => pteValid (ms.pageTable vpn)) = true
      · rw [if_pos h2] at hm
        have : (-1 : Int) = 0 := congrArg Prod.fst hm
        exact absurd this (by decide)
      · rw [if_neg h2] at hm
        have hms1 : ms1 = insert_framed_area ms start (start + len) (mapPermFromPort port) :=
          ((Prod.mk.injEq _ _ _ _).mp hm).2.symm
        push_neg at h1
        have halign : start &&& 0xFFF = 0 := h1.1
        have hnalign : ¬ start &&& 0xFFF ≠ 0 := fun hc => hc halign
        have hse : vaFloor start < vaCeil (start + len) := by
          unfold vaFloor vaCeil PAGE_SIZE
          have hx1 : start + 4096 ≤ start + len + 4095 := by omega
          have hx2 : (start + 4096) / 4096 = start / 4096 + 1 :=
            Nat.add_div_right start (by norm_num)
          have hx3 := Nat.div_le_div_right (c := 4096) hx1
          omega
        have hpt1 : ∀ vpn, ms1.pageTable vpn =
            if vaFloor start ≤ vpn ∧ vpn < vaCeil (start + len)
            then some ⟨true, mapPermFromPort port⟩ else ms.pageTable vpn := by
          intro vpn
          rw [hms1]
          rfl
        -- first munmap of the same range succeeds
        have hscan1 : (vpnRange (vaFloor start) (vaCeil (start + len))).any
            (fun vpn => pteInvalidPresent (ms1.pageTable vpn)) = false := by
          rw [List.any_eq_false]
          intro vpn hvpn
          have hin := mem_vpnRange.mp hvpn
          rw [hpt1 vpn, if_pos hin]
          simp [pteInvalidPresent]
        have hdel : (del_framed_area ms1 start (start + len)).pageTable
              = fun vpn => if vaFloor start ≤ vpn ∧ vpn < vaCeil (start + len)
                           then some ⟨false, 0⟩ else ms1.pageTable vpn := by
          have hmem : ms1.areas.any
              (fun a => a.1 == vaFloor start && a.2.1 == vaCeil (start + len)) = true := by
            rw [hms1]
            show (ms.areas ++ [(vaFloor start, vaCeil (start + len), mapPermFromPort port)]).any _ = true
            rw [List.any_eq_true]
            refine ⟨(vaFloor start, vaCeil (start + len), mapPermFromPort port), ?_, ?_⟩
            · exact List.mem_append_right _ (List.mem_singleton_self _)
            · simp
          unfold del_framed_area
          rw [if_pos hmem]
        refine ⟨del_framed_area ms1 start (start + len), ?_, ?_⟩
        · unfold TaskManager_munmap
          rw [if_neg hnalign, if_neg (by rw [hscan1]; exact Bool.false_ne_true)]
        · unfold TaskManager_munmap
          rw [if_neg hnalign]
          have hscan2 : (vpnRange (vaFloor start) (vaCeil (start + len))).any
              (fun vpn => pteInvalidPresent
                ((del_framed_area ms1 start (start + len)).pageTable vpn)) = true := by
            rw [List.any_eq_true]
            refine ⟨vaFloor start, mem_vpnRange.mpr ⟨le_refl _, hse⟩, ?_⟩
            simp only [hdel]
            rw [if_pos ⟨le_refl _, hse⟩]
            rfl
          rw [if_pos hscan2]

/-- Witness for C3: `munmap(0, 4096)` fails with -1 on an address space whose
page 0 has a cleared leaf entry; and on the empty address space,
`mmap(0, 4096, 7)` succeeds, a first `munmap(0, 4096)` returns 0 and a second
returns -1. -/
theorem munmap_spec_w :
    TaskManager_munmap msInv 0 4096 = (-1, msInv)
    ∧ ∃ ms2, TaskManager_munmap (TaskManager_mmap msEmpty 0 4096 7).2 0 4096 = (0, ms2)
           ∧ TaskManager_munmap ms2 0 4096 = (-1, ms2) := by
  constructor
  · exact (munmap_spec msInv 0 4096 7).1 ⟨0, by decide, by decide⟩
  · exact (munmap_spec msEmpty 0 4096 7).2 (by decide)
      (TaskManager_mmap msEmpty 0 4096 7).2 rfl

/-! ## Scheduler (`src/os/src/task/mod.rs` lines 119-142, 165-186, 301-311) -/

/-- The task statuses occurring in the ch4-style task manager
(`TaskStatus::Ready/Running/Exited` in task/mod.rs), together with the
`Zombie` status the spec names for comparison. -/
inductive TaskStatus where
  | Ready
  | Running
  | Exited
  | Zombie
deriving DecidableEq

/-- The scheduler state `TaskManagerInner`: the status column of the task
table and the id of the current task (`num_app` is the length of the task
list). -/
structure SchedState where
  tasks : List TaskStatus
  current : Nat
deriving DecidableEq

/-- Rust `TaskManager::find_next_task` (task/mod.rs lines 136-142): scan the ids
`current+1 .. current+num_app` reduced mod `num_app` and return the first
whose task has status `Ready`. -/
def find_next_task (tasks : List TaskStatus) (current : Nat) : Option Nat :=
  ((List.range' (current + 1) tasks.length).map (fun id => id % tasks.length)).find?
    (fun id => tasks.getD id TaskStatus.Exited == TaskStatus.Ready)

/-- Rust `TaskManager::mark_current_suspended` (task/mod.rs lines 120-124). -/
def mark_current_suspended (s : SchedState) : SchedState :=
  { s with tasks := s.tasks.set s.current TaskStatus.Ready }

/-- Rust `TaskManager::mark_current_exited` (task/mod.rs lines 127-131): sets the
current task's status to `TaskStatus::Exited`. -/
def mark_current_exited (s : SchedState) : SchedState :=
  { s with tasks := s.tasks.set s.current TaskStatus.Exited }

/-- Rust `TaskManager::run_next_task` (task/mod.rs lines 165-186): picks the next
ready task, marks it `Running` and makes it current; `none` models the
`panic!("All applications completed!")` arm. -/
def run_next_task (s : SchedState) : Option SchedState :=
  match find_next_task s.tasks s.current with
  | some next => some { tasks := s.tasks.set next TaskStatus.Running, current := next }
  | none => none

/-- Rust `suspend_current_and_run_next` (task/mod.rs lines 302-305). -/
def suspend_current_and_run_next (s : SchedState) : Option SchedState :=
  run_next_task (mark_current_suspended s)

/-- Rust `exit_current_and_run_next` (task/mod.rs lines 308-311). -/
def exit_current_and_run_next (s : SchedState) : Option SchedState :=
  run_next_task (mark_current_exited s)

/-- A status the ch4 task manager actually assigns. -/
def statusOk (t : TaskStatus) : Bool :=
  t == TaskStatus.Ready || t == TaskStatus.Running || t == TaskStatus.Exited

lemma find?_eq_some_first {α} (p : α → Bool) :
    ∀ (l : List α) (x : α), l.find? p = some x →
      ∃ i, ∃ hi : i < l.length,
        l.get ⟨i, hi⟩ = x ∧ p x = true
        ∧ ∀ j (hj : j < i), p (l.get ⟨j, Nat.lt_trans hj hi⟩) = false
  | [], x, h => by simp [List.find?] at h
  | a :: rest, x, h => by
    by_cases ha : p a = true
    · refine ⟨0, Nat.succ_pos _, ?_, ?_, ?_⟩
      · have : some a = some x := by simpa [List.find?, ha] using h
        simpa using this
      · have : some a = some x := by simpa [List.find?, ha] using h
        have hax : a = x := by simpa using this
        exact hax ▸ ha
      · intro j hj; exact absurd hj (Nat.not_lt_zero j)
    · have ha' : p a = false := Bool.eq_false_iff.mpr ha
      have hrest : rest.find? p = some x := by
        simpa [List.find?, ha'] using h
      obtain ⟨i, hi, hget, hp, hmin⟩ := find?_eq_some_first p rest x hrest
      refine ⟨i + 1, Nat.succ_lt_succ hi, hget, hp, ?_⟩
      intro j hj
      match j with
      | 0 => exact ha'
      | Nat.succ j' => exact hmin j' (Nat.lt_of_succ_lt_succ hj)

/-- C5: `find_next_task` returns the first `Ready` task index encountered when
scanning `current+1, current+2, …` wrapping modulo the number of tasks (ending
with `current` itself), returns nothing when no task is `Ready`, and three
tasks that repeatedly yield and never exit are selected in round-robin order
1, 2, 0, 1, 2, 0, …. -/
theorem find_next_task_spec (tasks : List TaskStatus) (current : Nat)
    (h : current < tasks.length) :
    (∀ i, find_next_task tasks current = some i →
      ∃ k, 1 ≤ k ∧ k ≤ tasks.length ∧ i = (current + k) % tasks.length
        ∧ tasks.getD i TaskStatus.Exited = TaskStatus.Ready
        ∧ ∀ j, 1 ≤ j → j < k →
            tasks.getD ((current + j) % tasks.length) TaskStatus.Exited ≠ TaskStatus.Ready)
    ∧ ((∀ t ∈ tasks, t ≠ TaskStatus.Ready) → find_next_task tasks current = none)
    ∧ ((∃ t ∈ tasks, t = TaskStatus.Ready) →
        ∃ i, find_next_task tasks current = some i)
    ∧ (suspend_current_and_run_next
          ⟨[TaskStatus.Running, TaskStatus.Ready, TaskStatus.Ready], 0⟩
        = some ⟨[TaskStatus.Ready, TaskStatus.Running, TaskStatus.Ready], 1⟩
       ∧ suspend_current_and_run_next
          ⟨[TaskStatus.Ready, TaskStatus.Running, TaskStatus.Ready], 1⟩
        = some ⟨[TaskStatus.Ready, TaskStatus.Ready, TaskStatus.Running], 2⟩
       ∧ suspend_current_and_run_next
          ⟨[TaskStatus.Ready, TaskStatus.Ready, TaskStatus.Running], 2⟩
        = some ⟨[TaskStatus.Running, TaskStatus.Ready, TaskStatus.Ready], 0⟩) := by
  have hn : 0 < tasks.length := Nat.lt_of_le_of_lt (Nat.zero_le current) h
  refine ⟨?_, ?_, ?_, by decide, by decide, by decide⟩
  · intro i hf
    unfold find_next_task at hf
    obtain ⟨idx, hidx, hget, hp, hmin⟩ := find?_eq_some_first _ _ _ hf
    have hlen : ((List.range' (current + 1) tasks.length).map
        (fun id => id % tasks.length)).length = tasks.length := by
      simp
    have hival : i = (current + (idx + 1)) % tasks.length := by
      rw [← hget]
      have hidx' : idx < tasks.length := by rwa [hlen] at hidx
      have : ((List.range' (current + 1) tasks.length).map
          (fun id => id % tasks.length)).get ⟨idx, hidx⟩
          = (current + 1 + idx) % tasks.length := by
        simp [List.getElem_map, List.getElem_range'_1]
      rw [this]
      congr 1
      omega
    refine ⟨idx + 1, Nat.le_add_left 1 idx, by rwa [hlen] at hidx, hival, ?_, ?_⟩
    · have := hp
      rwa [beq_iff_eq] at this
    · intro j hj1 hjk
      have hj' : j - 1 < idx := by omega
      have hfalse := hmin (j - 1) hj'
      have hval : ((List.range' (current + 1) tasks.length).map
          (fun id => id % tasks.length)).get ⟨j - 1, Nat.lt_trans hj' hidx⟩
          = (current + j) % tasks.length := by
        simp only [List.get_eq_getElem, List.getElem_map, List.getElem_range'_1]
        congr 1
        omega
      rw [hval] at hfalse
      intro hc
      rw [hc] at hfalse
      simp at hfalse
  · intro hnone
    unfold find_next_task
    rw [List.find?_eq_none]
    intro x hx
    simp only [List.mem_map, List.mem_range'_1] at hx
    obtain ⟨id, _, rfl⟩ := hx
    have hlt : id % tasks.length < tasks.length := Nat.mod_lt id hn
    have hmem : tasks.getD (id % tasks.length) TaskStatus.Exited ∈ tasks := by
      rw [List.getD_eq_getElem tasks TaskStatus.Exited hlt]
      exact List.getElem_mem hlt
    have := hnone _ hmem
    simpa [beq_iff_eq] using this
  · intro hready
    obtain ⟨t, hmem, rfl⟩ := hready
    obtain ⟨idx0, hidx0, hgetidx⟩ := List.mem_iff_getElem.mp hmem
    cases hfind : find_next_task tasks current with
    | some i => exact ⟨i, rfl⟩
    | none =>
      exfalso
      unfold find_next_task at hfind
      rw [List.find?_eq_none] at hfind
      have hidmem : idx0 ∈ (List.range' (current + 1) tasks.length).map
          (fun id => id % tasks.length) := by
        rcases Nat.lt_or_ge current idx0 with hcase | hcase
        · exact List.mem_map.mpr ⟨idx0, List.mem_range'_1.mpr ⟨by omega, by omega⟩,
            Nat.mod_eq_of_lt hidx0⟩
        · refine List.mem_map.mpr ⟨idx0 + tasks.length,
            List.mem_range'_1.mpr ⟨by omega, by omega⟩, ?_⟩
          rw [Nat.add_mod_right]
          exact Nat.mod_eq_of_lt hidx0
      have hbad := hfind idx0 hidmem
      rw [List.getD_eq_getElem tasks TaskStatus.Exited hidx0, hgetidx] at hbad
      simp at hbad

/-- Witness for C5 at concrete inputs: with tasks `[Exited, Ready]` and
current task 0, the scan selects task 1; with every task `Exited`, no task is
selected. -/
theorem find_next_task_spec_w :
    (∃ k, 1 ≤ k ∧ k ≤ 2 ∧ 1 = (0 + k) % 2
        ∧ [TaskStatus.Exited, TaskStatus.Ready].getD 1 TaskStatus.Exited = TaskStatus.Ready
        ∧ ∀ j, 1 ≤ j → j < k →
            [TaskStatus.Exited, TaskStatus.Ready].getD ((0 + j) % 2) TaskStatus.Exited
              ≠ TaskStatus.Ready)
    ∧ find_next_task [TaskStatus.Exited, TaskStatus.Exited] 0 = none := by
  constructor
  · exact (find_next_task_spec [TaskStatus.Exited, TaskStatus.Ready] 0 (by decide)).1
      1 (by decide)
  · exact (find_next_task_spec [TaskStatus.Exited, TaskStatus.Exited] 0 (by decide)).2.1
      (by decide)

/-- C6 counterexample: when the only (Running) task exits through
`mark_current_exited`, its status becomes `TaskStatus::Exited`, which is not
the `Zombie` status the claim names. -/
theorem mark_exited_zombie_cex :
    (mark_current_exited ⟨[TaskStatus.Running], 0⟩).tasks = [TaskStatus.Exited]
    ∧ TaskStatus.Exited ≠ TaskStatus.Zombie := by decide

/-- C6 (amended): every status the ch4 task manager assigns is one of Ready,
Running, Exited (the manager's terminal state is named `Exited`, not
`Zombie`), and when the currently Running task exits
(`exit_current_and_run_next` via `mark_current_exited`) its status becomes
`Exited`, leaving every other task's status unchanged. -/
theorem mark_exited_spec (s : SchedState) (h : s.current < s.tasks.length) :
    (mark_current_exited s).tasks.getD s.current TaskStatus.Zombie = TaskStatus.Exited
    ∧ (∀ i, i ≠ s.current →
        (mark_current_exited s).tasks.getD i TaskStatus.Zombie
          = s.tasks.getD i TaskStatus.Zombie)
    ∧ ((∀ t ∈ s.tasks, statusOk t = true) →
        ∀ t ∈ (mark_current_exited s).tasks, statusOk t = true)
    ∧ ((∀ t ∈ s.tasks, statusOk t = true) →
        ∀ t ∈ (mark_current_suspended s).tasks, statusOk t = true)
    ∧ (∀ s2, run_next_task s = some s2 → (∀ t ∈ s.tasks, statusOk t = true) →
        ∀ t ∈ s2.tasks, statusOk t = true) := by
  refine ⟨?_, ?_, ?_, ?_, ?_⟩
  · show (s.tasks.set s.current TaskStatus.Exited).getD s.current TaskStatus.Zombie = _
    rw [List.getD_eq_getElem?_getD, List.getElem?_set_self',
      List.getElem?_eq_getElem h]
    rfl
  · intro i hi
    show (s.tasks.set s.current TaskStatus.Exited).getD i TaskStatus.Zombie = _
    rw [List.getD_eq_getElem?_getD, List.getElem?_set_ne (fun hc => hi hc.symm),
      ← List.getD_eq_getElem?_getD]
  · intro hall t ht
    rcases List.mem_or_eq_of_mem_set ht with hmem | rfl
    · exact hall t hmem
    · rfl
  · intro hall t ht
    rcases List.mem_or_eq_of_mem_set ht with hmem | rfl
    · exact hall t hmem
    · rfl
  · intro s2 hrun hall t ht
    unfold run_next_task at hrun
    cases hfind : find_next_task s.tasks s.current with
    | none => rw [hfind] at hrun; exact absurd hrun (by simp)
    | some next =>
      rw [hfind] at hrun
      have hs2 : s2 = ⟨s.tasks.set next TaskStatus.Running, next⟩ := by
        injection hrun with h2
        exact h2.symm
      rw [hs2] at ht
      rcases List.mem_or_eq_of_mem_set ht with hmem | rfl
      · exact hall t hmem
      · rfl

/-- Witness for C6 at a concrete input: a single Running task at index 0;
after `mark_current_exited` its status reads back `Exited` and every status in
the table is one the manager assigns. -/
theorem mark_exited_spec_w :
    (mark_current_exited ⟨[TaskStatus.Running], 0⟩).tasks.getD 0 TaskStatus.Zombie
        = TaskStatus.Exited
    ∧ ∀ t ∈ (mark_current_exited ⟨[TaskStatus.Running], 0⟩).tasks, statusOk t = true := by
  refine ⟨(mark_exited_spec ⟨[TaskStatus.Running], 0⟩ (by decide)).1, ?_⟩
  exact (mark_exited_spec ⟨[TaskStatus.Running], 0⟩ (by decide)).2.2.1 (by decide)

/-! ## Writing records through translated user buffers
(`src/os/src/syscall/process.rs` lines 123-164 and 169-225,
`src/os/src/syscall/fs.rs` lines 79-131) -/

/-- The write loop shared by `sys_get_time` and `sys_task_info`: `record` is
the record's byte slice, `caps` the lengths of the physically-contiguous
byte-range views returned by `translated_byte_buffer`, `written` the running
count. Each iteration copies `min(remaining, buffer.len())` bytes of the slice
into the next view; when `written` reaches the record size the syscall returns
0 (`some` of the chunks written); running out of views first is the
`panic!` arm (`none`). -/
def copy_loop (record : List Nat) (size : Nat) :
    List Nat → Nat → Option (List (List Nat))
  | [], _ => none
  | cap :: rest, written =>
    let write_size := min (size - written) cap
    let chunk := (record.drop written).take write_size
    if written + write_size = size then some [chunk]
    else
      match copy_loop record size rest (written + write_size) with
      | some chunks => some (chunk :: chunks)
      | none => none

/-- Rust `sys_get_time`'s user-space write (process.rs lines 148-157):
the loop over the views of a `TimeVal`-sized range. -/
def sys_get_time_write (time_bytes : List Nat) (caps : List Nat) :
    Option (List (List Nat)) :=
  copy_loop time_bytes time_bytes.length caps 0

/-- Rust `sys_task_info`'s user-space write (process.rs lines 209-218):
the same loop over the views of a `TaskInfo`-sized range. -/
def sys_task_info_write (info_bytes : List Nat) (caps : List Nat) :
    Option (List (List Nat)) :=
  copy_loop info_bytes info_bytes.length caps 0

/-- Rust `sys_fstat`'s user-space write (fs.rs line 119): the loop is commented out
in the source and replaced by `buffers[0].copy_from_slice(temp_slice)`, which
indexes the first view (a panic when there is none) and requires its length to
equal the whole record's (`copy_from_slice` panics on length mismatch); only
then is the record written, entirely into the first view. -/
def sys_fstat_write (stat_bytes : List Nat) (caps : List Nat) :
    Option (List (List Nat)) :=
  match caps with
  | [] => none
  | cap :: _ => if cap = stat_bytes.length then some [stat_bytes] else none

lemma copy_loop_complete (record : List Nat) :
    ∀ (caps : List Nat) (written : Nat), written < record.length →
      record.length - written ≤ caps.sum →
      ∃ chunks, copy_loop record record.length caps written = some chunks
        ∧ chunks.flatten = record.drop written := by
  intro caps
  induction caps with
  | nil =>
    intro written hw hsum
    simp only [List.sum_nil, Nat.le_zero] at hsum
    omega
  | cons cap rest ih =>
    intro written hw hsum
    by_cases hfit : written + min (record.length - written) cap = record.length
    · refine ⟨[(record.drop written).take (min (record.length - written) cap)], ?_, ?_⟩
      · unfold copy_loop
        rw [if_pos hfit]
      · have hall : record.length - written ≤ min (record.length - written) cap := by
          have hml := Nat.min_le_left (record.length - written) cap
          omega
        rw [List.flatten_cons, List.flatten_nil, List.append_nil,
          List.take_of_length_le]
        rw [List.length_drop]
        omega
    · have hmin_le : min (record.length - written) cap ≤ record.length - written :=
        Nat.min_le_left _ _
      have hlt : written + min (record.length - written) cap < record.length := by
        omega
      have hcap : min (record.length - written) cap = cap := by
        rcases Nat.le_total (record.length - written) cap with hle | hle
        · rw [Nat.min_eq_left hle] at hfit hmin_le ⊢
          omega
        · exact Nat.min_eq_right hle
      have hsum' : record.length - (written + min (record.length - written) cap)
          ≤ rest.sum := by
        rw [hcap]
        simp only [List.sum_cons] at hsum
        omega
      obtain ⟨chunks, hcl, hjoin⟩ := ih (written + min (record.length - written) cap)
        hlt hsum'
      refine ⟨(record.drop written).take (min (record.length - written) cap) :: chunks,
        ?_, ?_⟩
      · unfold copy_loop
        rw [if_neg hfit, hcl]
      · rw [List.flatten_cons, hjoin]
        have hdd : record.drop (written + min (record.length - written) cap)
            = (record.drop written).drop (min (record.length - written) cap) := by
          rw [List.drop_drop]
        rw [hdd]
        exact List.take_append_drop _ _

/-- C4 (code bug exhibited at the failing input): when every page of the user
range is mapped and writable — so the views returned by
`translated_byte_buffer` cover the whole record — the write loop used by
`sys_get_time` and `sys_task_info` writes all bytes of the record across the
sequence of views, including when the range straddles a page boundary into two
views; but `sys_fstat`'s write, whose loop is commented out and replaced by
`buffers[0].copy_from_slice(temp_slice)`, fails (a kernel panic, not a write)
whenever the record does not fit entirely in the first view, as at the
concrete 80-byte record split into views of 48 and 32 bytes — where the loop
would have succeeded. -/
theorem record_write_spec (record caps : List Nat) (h1 : 0 < record.length)
    (h2 : record.length ≤ caps.sum) :
    (∃ chunks, sys_get_time_write record caps = some chunks
        ∧ chunks.flatten = record)
    ∧ (∃ chunks, sys_task_info_write record caps = some chunks
        ∧ chunks.flatten = record)
    ∧ (∃ chunks, sys_get_time_write (List.range 80) [48, 32] = some chunks
        ∧ chunks.flatten = List.range 80)
    ∧ sys_fstat_write (List.range 80) [48, 32] = none := by
  have hmain : ∃ chunks, copy_loop record record.length caps 0 = some chunks
      ∧ chunks.flatten = record := by
    obtain ⟨chunks, hc, hf⟩ := copy_loop_complete record caps 0 h1 (by simpa using h2)
    exact ⟨chunks, hc, by simpa using hf⟩
  have hstraddle : ∃ chunks,
      copy_loop (List.range 80) (List.range 80).length [48, 32] 0 = some chunks
      ∧ chunks.flatten = List.range 80 := by
    obtain ⟨chunks, hc, hf⟩ := copy_loop_complete (List.range 80) [48, 32] 0
      (by simp) (by simp)
    exact ⟨chunks, hc, by simpa using hf⟩
  exact ⟨hmain, hmain, hstraddle, rfl⟩

/-- Witness for C4 at concrete inputs: a 16-byte record (the size of
`TimeVal`) written through two 8-byte views straddling a page boundary is
written completely by the loop, while `sys_fstat`'s replacement write fails on
its straddling input. -/
theorem record_write_spec_w :
    (∃ chunks, sys_get_time_write (List.range 16) [8, 8] = some chunks
        ∧ chunks.flatten = List.range 16)
    ∧ sys_fstat_write (List.range 80) [48, 32] = none := by
  have h := record_write_spec (List.range 16) [8, 8] (by simp) (by simp)
  exact ⟨h.1, h.2.2.2⟩

/-! ## sys_fork (`src/os/src/syscall/process.rs` lines 54-67) -/

/-- The fields of a task-control block that `sys_fork` observes: the pid and
the trap context's return-value register `x[10]`. -/
structure PCB5 where
  pid : Nat
  trap_x10 : Nat
deriving DecidableEq

/-- The kernel state `sys_fork` acts on: the current task, the next free pid
of the pid allocator, and the scheduler's ready queue. -/
structure Kernel5 where
  current : PCB5
  next_pid : Nat
  ready_queue : List PCB5
deriving DecidableEq

/-- Modelled from the spec: `TaskControlBlock::fork` (src/os/src/task/task.rs
is not among the provided sources) — "creates a new TCB that is a full
address-space and fd-table duplicate of the caller … preserves the caller's
return value as the new pid": the duplicate carries the caller's trap context
(hence its `x[10]`) under a fresh pid. -/
def TCB_fork (parent : PCB5) (fresh_pid : Nat) : PCB5 :=
  { parent with pid := fresh_pid }

/-- Modelled from the spec: `add_task` — "enqueues the child as `Ready`" on
the scheduler's ready queue. -/
def add_task (q : List PCB5) (t : PCB5) : List PCB5 := q ++ [t]

/-- Rust `sys_fork` (process.rs lines 54-67): forks the current task, records the
new pid, zeroes the child's trap-context `x[10]`, enqueues the child, and
returns the new pid as the parent's syscall return value. -/
def sys_fork (k : Kernel5) : Int × Kernel5 :=
  let new_task := TCB_fork k.current k.next_pid
  let new_pid := new_task.pid
  let new_task2 : PCB5 := { new_task with trap_x10 := 0 }
  (isizeOf new_pid,
   { k with ready_queue := add_task k.ready_queue new_task2,
            next_pid := k.next_pid + 1 })

/-- C7: after `sys_fork`, the child's trap-context return-value register
`x[10]` is 0, the parent's syscall return value is the child's pid, and the
child has been added to the scheduler's ready queue. -/
theorem sys_fork_spec (k : Kernel5) :
    ∃ child, (sys_fork k).2.ready_queue = k.ready_queue ++ [child]
      ∧ child.trap_x10 = 0
      ∧ (sys_fork k).1 = isizeOf child.pid
      ∧ child ∈ (sys_fork k).2.ready_queue := by
  refine ⟨{ pid := k.next_pid, trap_x10 := 0 }, rfl, rfl, rfl, ?_⟩
  show _ ∈ add_task k.ready_queue _
  exact List.mem_append_right _ (List.mem_singleton_self _)

/-! ## sys_write / sys_read fd checks (`src/os/src/syscall/fs.rs` lines 6-47) -/

/-- A file capability as the fd table stores it: its readable/writable
flags. -/
structure FileCap where
  readable : Bool
  writable : Bool
deriving DecidableEq

/-- Rust `sys_write` (fs.rs lines 6-25) as it acts on the caller's fd table:
out-of-range fd, empty slot, or a capability without the writable flag yield
-1 and leave the table unchanged; otherwise the file's write result is
returned (`write_ret` stands for `file.write(..)`). The fd table is returned
alongside to record that no branch mutates it. -/
def sys_write_fd (fd_table : List (Option FileCap)) (fd : Nat) (write_ret : Nat) :
    Int × List (Option FileCap) :=
  if fd_table.length ≤ fd then (-1, fd_table)
  else
    match fd_table.getD fd none with
    | some file => if !file.writable then (-1, fd_table) else (isizeOf write_ret, fd_table)
    | none => (-1, fd_table)

/-- Rust `sys_read` (fs.rs lines 27-47): same shape with the readable flag
(`read_ret` stands for `file.read(..)`). -/
def sys_read_fd (fd_table : List (Option FileCap)) (fd : Nat) (read_ret : Nat) :
    Int × List (Option FileCap) :=
  if fd_table.length ≤ fd then (-1, fd_table)
  else
    match fd_table.getD fd none with
    | some file => if !file.readable then (-1, fd_table) else (isizeOf read_ret, fd_table)
    | none => (-1, fd_table)

/-- C8: `sys_write(fd, ..)` and `sys_read(fd, ..)` return the sentinel -1 and
leave the fd table unchanged whenever fd is at or beyond the fd table's
length, or the slot at fd is empty, or the capability lacks the required
writable/readable flag; the functions are total (no branch terminates the
kernel). -/
theorem rw_fd_error_spec (fd_table : List (Option FileCap)) (fd wr rr : Nat) :
    ((fd_table.length ≤ fd ∨ fd_table.getD fd none = none
        ∨ ∃ f, fd_table.getD fd none = some f ∧ f.writable = false) →
      sys_write_fd fd_table fd wr = (-1, fd_table))
    ∧ ((fd_table.length ≤ fd ∨ fd_table.getD fd none = none
        ∨ ∃ f, fd_table.getD fd none = some f ∧ f.readable = false) →
      sys_read_fd fd_table fd rr = (-1, fd_table)) := by
  constructor
  · intro h
    unfold sys_write_fd
    by_cases hlen : fd_table.length ≤ fd
    · rw [if_pos hlen]
    · rw [if_neg hlen]
      rcases h with hl | hnone | ⟨f, hf, hw⟩
      · exact absurd hl hlen
      · rw [hnone]
      · rw [hf]
        simp [hw]
  · intro h
    unfold sys_read_fd
    by_cases hlen : fd_table.length ≤ fd
    · rw [if_pos hlen]
    · rw [if_neg hlen]
      rcases h with hl | hnone | ⟨f, hf, hr⟩
      · exact absurd hl hlen
      · rw [hnone]
      · rw [hf]
        simp [hr]

/-- Witness for C8 at concrete inputs: a 2-entry fd table whose slot 0 is
empty and slot 1 holds a read-only capability — writing to fd 1, reading from
a write-only fd, and using fd 5 all fail with -1 and leave the table as it
was. -/
theorem rw_fd_error_spec_w :
    sys_write_fd [none, some ⟨true, false⟩] 1 7 = (-1, [none, some ⟨true, false⟩])
    ∧ sys_read_fd [none, some ⟨false, true⟩] 1 7 = (-1, [none, some ⟨false, true⟩])
    ∧ sys_write_fd [none, some ⟨true, false⟩] 5 7 = (-1, [none, some ⟨true, false⟩])
    ∧ sys_read_fd [none, some ⟨false, true⟩] 0 7 = (-1, [none, some ⟨false, true⟩]) := by
  refine ⟨?_, ?_, ?_, ?_⟩
  · exact (rw_fd_error_spec [none, some ⟨true, false⟩] 1 7 7).1
      (Or.inr (Or.inr ⟨⟨true, false⟩, by decide, rfl⟩))
  · exact (rw_fd_error_spec [none, some ⟨false, true⟩] 1 7 7).2
      (Or.inr (Or.inr ⟨⟨false, true⟩, by decide, rfl⟩))
  · exact (rw_fd_error_spec [none, some ⟨true, false⟩] 5 7 7).1
      (Or.inl (by decide))
  · exact (rw_fd_error_spec [none, some ⟨false, true⟩] 0 7 7).2
      (Or.inr (Or.inl (by decide)))

/-- Witness for C9 at a concrete input: a root directory with entries a↦1 and
b↦2; removing "a" returns 0 and leaves the inode allocation untouched, and
removing "c" returns -1. -/
theorem remove_link_spec_w :
    (remove_link ⟨[⟨"a", 1⟩, ⟨"b", 2⟩], [1, 2], [5]⟩ "a").1 = 0
    ∧ (remove_link ⟨[⟨"a", 1⟩, ⟨"b", 2⟩], [1, 2], [5]⟩ "a").2.allocated_inodes = [1, 2]
    ∧ (remove_link ⟨[⟨"a", 1⟩, ⟨"b", 2⟩], [1, 2], [5]⟩ "c").1 = -1 := by
  refine ⟨?_, (remove_link_spec ⟨[⟨"a", 1⟩, ⟨"b", 2⟩], [1, 2], [5]⟩ "a").2.1, ?_⟩
  · exact (remove_link_spec ⟨[⟨"a", 1⟩, ⟨"b", 2⟩], [1, 2], [5]⟩ "a").2.2.2.1.mpr
      ⟨⟨"a", 1⟩, List.mem_cons_self _ _, rfl⟩
  · refine (remove_link_spec ⟨[⟨"a", 1⟩, ⟨"b", 2⟩], [1, 2], [5]⟩ "c").2.2.2.2.mpr ?_
    intro d hd
    rcases List.mem_cons.mp hd with rfl | hd2
    · decide
    · rcases List.mem_cons.mp hd2 with rfl | hd3
      · decide
      · exact absurd hd3 (List.not_mem_nil d)
